import Mathlib

/-!
# ContextMap: verification of the session-capture and transcript pipeline

Shallow embedding of the two source files `bin/contextmap.py` and
`bin/wrapper.py`.  Python strings are modelled as `List Char` (Python 3
strings are sequences of unicode code points); machine-level effects
(file system, process spawning, subprocess results) are modelled as
explicit data passed to the embedded control flow.
-/

/-- A Python string: a list of unicode code points. -/
abbrev Str := List Char

/-- The ESC character `\x1B`. -/
def escChar : Char := Char.ofNat 27

/-- Membership in the regex character class `[@-Z\\-_]`
(`0x40`–`0x5A` or `0x5C`–`0x5F`), the single-byte alternative of the
ANSI pattern in `clean_ansi`. -/
def isSingleEscFollower (c : Char) : Bool :=
  (0x40 ≤ c.toNat && c.toNat ≤ 0x5A) || (0x5C ≤ c.toNat && c.toNat ≤ 0x5F)

/-- Membership in the regex class `[0-?]` (`0x30`–`0x3F`): CSI parameter bytes. -/
def isParamByte (c : Char) : Bool := 0x30 ≤ c.toNat && c.toNat ≤ 0x3F

/-- Membership in the regex class from space to slash (`0x20`–`0x2F`):
CSI intermediate bytes. -/
def isIntermediateByte (c : Char) : Bool := 0x20 ≤ c.toNat && c.toNat ≤ 0x2F

/-- Membership in the regex class `[@-~]` (`0x40`–`0x7E`): CSI final bytes. -/
def isFinalByte (c : Char) : Bool := 0x40 ≤ c.toNat && c.toNat ≤ 0x7E

/-- Attempt to match the tail of the ANSI regex of `clean_ansi` (ESC
followed by a single follower byte, or by a bracket, parameter bytes,
intermediate bytes and a final byte) at the characters following an
ESC.  Returns the remainder of the input after the match, or `none`.
The three CSI classes are pairwise disjoint, so greedy matching without
backtracking is exactly the Python regex's behaviour. -/
def matchEscTail : Str → Option Str
  | [] => none
  | c :: rest =>
    if isSingleEscFollower c then some rest
    else if c = '[' then
      match (rest.dropWhile isParamByte).dropWhile isIntermediateByte with
      | [] => none
      | f :: r => if isFinalByte f then some r else none
    else none

/-- Fuel-indexed leftmost non-overlapping deletion of matches of the
ANSI pattern, mirroring `ansi_escape.sub('', text)`.  The fuel is an
upper bound on the input length, so the `0` case is unreachable when
called through `ansiSub`. -/
def stripAnsiFuel : Nat → Str → Str
  | 0, l => l
  | _ + 1, [] => []
  | fuel + 1, c :: rest =>
    if c = escChar then
      match matchEscTail rest with
      | some r => stripAnsiFuel fuel r
      | none => c :: stripAnsiFuel fuel rest
    else c :: stripAnsiFuel fuel rest

/-- `ansi_escape.sub('', text)`: delete every leftmost match of the
ANSI escape-sequence regex. -/
def ansiSub (l : Str) : Str := stripAnsiFuel l.length l

/-- Membership in the class `[\x00-\x09\x0B\x0C\x0E-\x1F\x7F]` removed by
the second substitution of `clean_ansi`.  Note the class excludes both
newline `\x0A` and carriage return `\x0D`. -/
def isOtherCtl (c : Char) : Bool :=
  (c.toNat ≤ 0x09) || (c.toNat = 0x0B) || (c.toNat = 0x0C) ||
  (0x0E ≤ c.toNat && c.toNat ≤ 0x1F) || (c.toNat = 0x7F)

/-- `clean_ansi` from `bin/contextmap.py`: first remove ANSI escape
sequences, then remove the other control characters. -/
def clean_ansi (text : Str) : Str :=
  (ansiSub text).filter (fun c => !(isOtherCtl c))

/-- A block of characters forming one complete ANSI escape sequence per
the grammar of the regex in `clean_ansi`: ESC plus a single follower
byte, or ESC, `[`, parameter bytes, intermediate bytes and a final byte. -/
def IsEscSeq (b : Str) : Prop :=
  (∃ c, b = [escChar, c] ∧ isSingleEscFollower c = true) ∨
  (∃ p i f, b = escChar :: '[' :: (p ++ i ++ [f]) ∧
    (∀ x ∈ p, isParamByte x = true) ∧
    (∀ x ∈ i, isIntermediateByte x = true) ∧ isFinalByte f = true)

-- ### The transcript compressor (`smart_compress_transcript`)

/-- Python `text.split('\n')`.  Splitting the empty string yields a
single empty piece, exactly as in Python. -/
def splitNl : Str → List Str
  | [] => [[]]
  | c :: rest =>
    if c = '\n' then [] :: splitNl rest
    else
      match splitNl rest with
      | [] => [[c]]
      | l :: ls => (c :: l) :: ls

/-- Python `'\n'.join(pieces)`. -/
def joinNl : List Str → Str
  | [] => []
  | [l] => l
  | l :: ls => l ++ '\n' :: joinNl ls

/-- The characters Python `str.strip()` removes: exactly those with
`str.isspace() == True`, i.e. whose Unicode general category is Zs or
whose bidirectional class is WS, B or S.  Enumerated: TAB through CR
(`0x09`–`0x0D`), FS through US (`0x1C`–`0x1F`), space, NEL (`0x85`),
NBSP (`0xA0`), Ogham space mark (`0x1680`), the Zs spaces
`0x2000`–`0x200A`, line and paragraph separators (`0x2028`, `0x2029`),
narrow no-break space (`0x202F`), medium mathematical space (`0x205F`)
and ideographic space (`0x3000`).  Several of these (NBSP, NEL, the Zs
spaces) survive `clean_ansi` and are reachable at the `strip()` calls. -/
def isPyWs (c : Char) : Bool :=
  (0x09 ≤ c.toNat && c.toNat ≤ 0x0D) ||
  (0x1C ≤ c.toNat && c.toNat ≤ 0x1F) ||
  c.toNat = 0x20 || c.toNat = 0x85 || c.toNat = 0xA0 || c.toNat = 0x1680 ||
  (0x2000 ≤ c.toNat && c.toNat ≤ 0x200A) ||
  c.toNat = 0x2028 || c.toNat = 0x2029 || c.toNat = 0x202F ||
  c.toNat = 0x205F || c.toNat = 0x3000

/-- Python `line.strip()`: drop leading and trailing whitespace. -/
def pyStrip (s : Str) : Str :=
  ((s.dropWhile isPyWs).reverse.dropWhile isPyWs).reverse

/-- The two interactive-prompt markers tested by
`line_strip.startswith("> ") or line_strip.startswith("❯ ")`. -/
def isPromptStrip (lineStrip : Str) : Bool :=
  List.isPrefixOf ['>', ' '] lineStrip || List.isPrefixOf ['❯', ' '] lineStrip

/-- Python substring test `needle in hay`. -/
def containsSub (needle hay : Str) : Bool :=
  hay.tails.any (fun t => needle.isPrefixOf t)

/-- The noise test of step 2 of the compressor loop:
`"Resolving..." in line or "Fetching..." in line or "Downloading..." in line`. -/
def isNoiseLine (line : Str) : Bool :=
  containsSub "Resolving...".toList line ||
  containsSub "Fetching...".toList line ||
  containsSub "Downloading...".toList line

/-- Decimal rendering of a natural number, modelling Python `str(n)`
for the non-negative `len(line)-200`.  Fuel-indexed so it computes by
kernel reduction; the fuel is an upper bound on the digit count. -/
def natDecimalAux : Nat → Nat → Str
  | 0, _ => []
  | fuel + 1, n =>
    if n < 10 then [Char.ofNat (48 + n)]
    else natDecimalAux fuel (n / 10) ++ [Char.ofNat (48 + n % 10)]

/-- Python `str(n)` for a natural number. -/
def natDecimal (n : Nat) : Str := natDecimalAux (n + 1) n

/-- The elision marker inserted by step 3 of the compressor loop for a
line of original length `len`:  `" ... [" + str(len-200) + " chars truncated] ... "`. -/
def truncMarker (n : Nat) : Str :=
  " ... [".toList ++ natDecimal n ++ " chars truncated] ... ".toList

/-- Step 3 of the compressor loop: a line longer than 300 characters is
replaced by `line[:100] + marker + line[-100:]`. -/
def truncateLongLine (line : Str) : Str :=
  if 300 < line.length then
    line.take 100 ++ truncMarker (line.length - 200) ++ line.drop (line.length - 100)
  else line

/-- The literal separator text of the user-step entry. -/
def userStepSep : Str := "--- USER STEP ---".toList

/-- One iteration of the compressor's `for line in lines` loop: the
entry appended to `compressed` for this line, or `none` when the line
is skipped (`continue` of the noise branch). -/
def processEntry (line : Str) : Option Str :=
  let lineStrip := pyStrip line
  if isPromptStrip lineStrip then
    some ('\n' :: (userStepSep ++ '\n' :: lineStrip))
  else if isNoiseLine line then none
  else some (truncateLongLine line)

/-- `smart_compress_transcript` from `bin/contextmap.py`: clean ANSI,
split into lines, process each line, rejoin with newlines.  (The final
"aggressive block deduplication" step of the source is a comment that
performs no computation.) -/
def smart_compress_transcript (raw : Str) : Str :=
  joinNl ((splitNl (clean_ansi raw)).filterMap processEntry)

/-- The lines that one input line contributes to the compressor output,
once the joined output is split back on newlines: a prompt line yields
a blank line, the separator and the trimmed line; a noise line yields
nothing; any other line yields its (possibly truncated) self. -/
def emittedLines (line : Str) : List Str :=
  let lineStrip := pyStrip line
  if isPromptStrip lineStrip then [[], userStepSep, lineStrip]
  else if isNoiseLine line then []
  else [truncateLongLine line]

-- ### The orchestrator: `generate_summary` and `main` of `contextmap.py`

/-- Python slice `s[-n:]` for `n > 0`: the last `n` characters, or the
whole string when it is shorter (natural subtraction models the clamp). -/
def pySliceLastN (n : Nat) (s : Str) : Str := s.drop (s.length - n)

/-- The collaborator input built by `generate_summary`:
the previous-session block, then the current transcript capped to its
last 80000 characters by the slice `transcript[-80000:]`. -/
def promptContent (transcript oldSummary : Str) : Str :=
  "=== PREVIOUS SESSION HTML ===\n".toList ++ oldSummary ++
    "\n\n=== CURRENT SESSION TRANSCRIPT ===\n".toList ++ pySliceLastN 80000 transcript

/-- Outcome of the external collaborator subprocess started by
`generate_summary`: either `subprocess.run` completed and yielded an
exit code plus captured stdout/stderr, or the attempt raised an
exception with a message. -/
inductive CollabOutcome where
  | ran (exitCode : Int) (stdout stderr : Str)
  | exn (msg : Str)

/-- The string `generate_summary` returns: the collaborator's stdout on
success; on `returncode != 0` the CLI-error marker with the captured
stderr; on an exception the execution-error marker with the message. -/
def generate_summary_result : CollabOutcome → Str
  | .ran code stdout stderr =>
    if code ≠ 0 then "❌ Claude CLI Error: ".toList ++ stderr else stdout
  | .exn msg => "❌ Execution Error: ".toList ++ msg

/-- The post-parsing part of `main` in `contextmap.py`, as a function of
the compressed transcript, the prior summary and the collaborator
outcome: the content written to the output file, or `none` when the
transcript strips to empty and `main` returns early without writing
("Empty transcript. Nothing to analyze"). -/
def main_saved_report (transcript : Str) (_oldSummary : Str) (outcome : CollabOutcome) :
    Option Str :=
  if pyStrip transcript = [] then none
  else some (generate_summary_result outcome)

-- ### The log retention manager (`cleanup_old_logs`)

/-- One directory entry as seen by `cleanup_old_logs`: its name, its
last-modification time in seconds, and whether the per-file
`os.path.getmtime` / `os.remove` calls raise `OSError` for it
(permissions, concurrent removal). -/
structure FsEntry where
  name : Str
  mtime : Int
  removeFails : Bool
deriving DecidableEq

/-- Python `f.endswith(".log")`. -/
def endsWithLog (name : Str) : Bool := List.isSuffixOf ".log".toList name

/-- The `for f in os.listdir(...)` loop of `cleanup_old_logs`: entries
not ending in `.log` are skipped; a matching entry older than the
cutoff is removed (unless the per-file operation fails, which is
swallowed by `except OSError: pass`); the scan always continues.
Returns the surviving entries in order and the deletion count. -/
def cleanupScan (cutoff : Int) : List FsEntry → List FsEntry × Nat
  | [] => ([], 0)
  | e :: rest =>
    let r := cleanupScan cutoff rest
    if !(endsWithLog e.name) then (e :: r.1, r.2)
    else if e.mtime < cutoff then
      if e.removeFails then (e :: r.1, r.2) else (r.1, r.2 + 1)
    else (e :: r.1, r.2)

/-- `cleanup_old_logs(log_dir, days)` from `contextmap.py`: a missing
directory is an early return (no-op); otherwise the cutoff is
`datetime.datetime.now().timestamp() - days * 86400` and the listing is
scanned.  The directory is `none` when it does not exist. -/
def cleanup_old_logs (now : Int) (days : Int) (dir : Option (List FsEntry)) :
    Option (List FsEntry) × Nat :=
  match dir with
  | none => (none, 0)
  | some entries =>
    let cutoff := now - days * 86400
    let r := cleanupScan cutoff entries
    (some r.1, r.2)

-- ### The PTY wrapper (`wrapper.py`)

/-- Outcome of the `pty.spawn` call in `main` of `wrapper.py`: the
child ran to completion with an exit status, or an `OSError` was raised
(pseudo-terminal allocation or exec failure) with a message. -/
inductive SpawnOutcome where
  | ok (childStatus : Nat)
  | osError (msg : Str)

/-- What one run of `main()` in `wrapper.py` produces at the process
boundary: the value `main` returns (`None` or `1`), the diagnostic
printed on spawn failure, and whether the opened log file was closed. -/
structure WrapperMainResult where
  returnValue : Option Nat
  diagnostic : Option Str
  logClosed : Bool

/-- `main()` of `wrapper.py` from the `pty.spawn` call on: on success
it ignores the status `pty.spawn` returns, runs the analyzer hand-off
and returns `None`; on `OSError` it prints two diagnostic lines naming
the error and the attempted command and returns `1`.  Either way the
`finally` block closes the already-opened log file. -/
def wrapper_main (realClaude : Str) (outcome : SpawnOutcome) : WrapperMainResult :=
  match outcome with
  | .ok _ =>
    { returnValue := none, diagnostic := none, logClosed := true }
  | .osError msg =>
    { returnValue := some 1
      diagnostic := some ("❌ Error spawning Claude: ".toList ++ msg ++
        "\n   (Tried running: ".toList ++ realClaude ++ ")".toList)
      logClosed := true }

/-- The `if __name__ == "__main__": main()` guard of `wrapper.py`: the
bare call discards `main`'s return value (there is no
`sys.exit(main())`), so the interpreter finishes the script normally
and the wrapper process exits with status 0 whatever `main` returned
and whatever the child's exit status was. -/
def wrapper_process_exit (realClaude : Str) (outcome : SpawnOutcome) : Nat :=
  let _ := wrapper_main realClaude outcome
  0

-- ### Basic lemmas about the stripper

theorem matchEscTail_length {l r : Str} (h : matchEscTail l = some r) :
    r.length < l.length := by
  match l with
  | [] => simp [matchEscTail] at h
  | c :: rest =>
    simp only [matchEscTail] at h
    split at h
    · cases h
      simp
    · split at h
      · split at h
        · cases h
        · rename_i heq
          split at h
          · cases h
            have h1 : ((rest.dropWhile isParamByte).dropWhile isIntermediateByte).length ≤
                rest.length :=
              le_trans (List.dropWhile_suffix _).length_le
                (List.dropWhile_suffix _).length_le
            rw [heq] at h1
            simp only [List.length_cons] at h1 ⊢
            omega
          · cases h
      · cases h

theorem stripAnsiFuel_congr : ∀ (f₁ f₂ : Nat) (l : Str),
    l.length ≤ f₁ → l.length ≤ f₂ → stripAnsiFuel f₁ l = stripAnsiFuel f₂ l := by
  intro f₁
  induction f₁ with
  | zero =>
    intro f₂ l h₁ _
    have : l = [] := List.eq_nil_of_length_eq_zero (Nat.le_zero.mp h₁)
    subst this
    cases f₂ <;> simp [stripAnsiFuel]
  | succ f ih =>
    intro f₂ l h₁ h₂
    cases l with
    | nil => cases f₂ <;> simp [stripAnsiFuel]
    | cons c rest =>
      cases f₂ with
      | zero => simp at h₂
      | succ f₂' =>
        simp only [stripAnsiFuel]
        simp only [List.length_cons, Nat.succ_le_succ_iff] at h₁ h₂
        split
        · rename_i hc
          cases hmr : matchEscTail rest with
          | none => rw [ih f₂' rest h₁ h₂]
          | some r =>
            have hr := matchEscTail_length hmr
            exact ih f₂' r (by omega) (by omega)
        · rw [ih f₂' rest h₁ h₂]

theorem ansiSub_nil : ansiSub [] = [] := rfl

theorem ansiSub_cons (c : Char) (rest : Str) :
    ansiSub (c :: rest) =
      if c = escChar then
        match matchEscTail rest with
        | some r => ansiSub r
        | none => c :: ansiSub rest
      else c :: ansiSub rest := by
  simp only [ansiSub, List.length_cons, stripAnsiFuel]
  split
  · cases hmr : matchEscTail rest with
    | none => rfl
    | some r =>
      have hr := matchEscTail_length hmr
      exact stripAnsiFuel_congr rest.length r.length r (by omega) le_rfl
  · rfl

/-- If a string contains no ESC character, the ANSI substitution leaves
it unchanged. -/
theorem ansiSub_of_no_esc : ∀ l : Str, (∀ c ∈ l, c ≠ escChar) → ansiSub l = l := by
  intro l
  induction l with
  | nil => intro _; rfl
  | cons c rest ih =>
    intro h
    rw [ansiSub_cons]
    have hc : c ≠ escChar := h c (by simp)
    rw [if_neg hc, ih (fun x hx => h x (by simp [hx]))]

theorem isOtherCtl_escChar : isOtherCtl escChar = true := by decide

/-- ESC never survives `clean_ansi`: it is removed by the control-character
substitution if the regex pass left it behind. -/
theorem escChar_not_mem_clean_ansi (s : Str) : escChar ∉ clean_ansi s := by
  intro hmem
  have := (List.mem_filter.mp hmem).2
  simp [isOtherCtl_escChar] at this

theorem dropWhile_append_of_all {q : Char → Bool} :
    ∀ {xs ys : Str}, (∀ x ∈ xs, q x = true) →
    (xs ++ ys).dropWhile q = ys.dropWhile q := by
  intro xs
  induction xs with
  | nil => intro ys _; rfl
  | cons x xs ih =>
    intro ys h
    rw [List.cons_append, List.dropWhile_cons]
    rw [if_pos (h x (by simp))]
    exact ih (fun y hy => h y (by simp [hy]))

/-- An escape-sequence block followed by anything: the regex match
consumes exactly the block. -/
theorem matchEscTail_escSeq {b : Str} (h : IsEscSeq b) (rest : Str) :
    matchEscTail (b.tail ++ rest) = some rest := by
  rcases h with ⟨c, hb, hc⟩ | ⟨p, i, f, hb, hp, hi, hf⟩
  · subst hb
    simp [matchEscTail, hc]
  · subst hb
    simp only [List.tail_cons, List.cons_append, matchEscTail]
    have hlb : isSingleEscFollower '[' = false := by decide
    rw [hlb]
    simp only [Bool.false_eq_true, if_false, if_pos rfl]
    have h1 : ((p ++ i ++ [f]) ++ rest).dropWhile isParamByte =
        (i ++ f :: rest).dropWhile isParamByte := by
      rw [List.append_assoc, List.append_assoc, List.singleton_append]
      exact dropWhile_append_of_all hp
    have hfnat : 0x40 ≤ f.toNat ∧ f.toNat ≤ 0x7E := by simpa [isFinalByte] using hf
    have h2 : (i ++ f :: rest).dropWhile isParamByte = i ++ f :: rest := by
      cases i with
      | nil =>
        rw [List.nil_append, List.dropWhile_cons]
        have hnf : isParamByte f = false := by
          rw [Bool.eq_false_iff]
          intro hcon
          have h1f : 0x30 ≤ f.toNat ∧ f.toNat ≤ 0x3F := by simpa [isParamByte] using hcon
          omega
        simp [hnf]
      | cons x xs =>
        rw [List.cons_append, List.dropWhile_cons]
        have hx : 0x20 ≤ x.toNat ∧ x.toNat ≤ 0x2F := by
          simpa [isIntermediateByte] using hi x (by simp)
        have hnx : isParamByte x = false := by
          rw [Bool.eq_false_iff]
          intro hcon
          have h1x : 0x30 ≤ x.toNat ∧ x.toNat ≤ 0x3F := by simpa [isParamByte] using hcon
          omega
        simp [hnx]
    have h3 : (i ++ f :: rest).dropWhile isIntermediateByte = f :: rest := by
      rw [dropWhile_append_of_all hi, List.dropWhile_cons]
      have hnf : isIntermediateByte f = false := by
        rw [Bool.eq_false_iff]
        intro hcon
        have h1f : 0x20 ≤ f.toNat ∧ f.toNat ≤ 0x2F := by
          simpa [isIntermediateByte] using hcon
        omega
      simp [hnf]
    rw [h1, h2, h3]
    simp [hf]

theorem ansiSub_escSeq_append {b : Str} (h : IsEscSeq b) (rest : Str) :
    ansiSub (b ++ rest) = ansiSub rest := by
  have hb : ∃ t, b = escChar :: t := by
    rcases h with ⟨c, hb, _⟩ | ⟨p, i, f, hb, _, _, _⟩
    · exact ⟨[c], by rw [hb]⟩
    · exact ⟨'[' :: (p ++ i ++ [f]), by rw [hb]⟩
  obtain ⟨t, ht⟩ := hb
  have htail : b.tail = t := by rw [ht]; rfl
  rw [ht, List.cons_append, ansiSub_cons, if_pos rfl]
  have := matchEscTail_escSeq h rest
  rw [htail] at this
  rw [this]

theorem IsEscSeq_no_newline {b : Str} (h : IsEscSeq b) :
    ∀ c ∈ b, (c == '\n') = false := by
  intro x hx
  rw [beq_eq_false_iff_ne]
  intro hxn
  subst hxn
  rcases h with ⟨c, hb, hc⟩ | ⟨p, i, f, hb, hp, hi, hf⟩
  · subst hb
    simp only [List.mem_cons, List.not_mem_nil, or_false] at hx
    rcases hx with hx | hx
    · exact absurd hx (by decide)
    · rw [← hx] at hc
      exact absurd hc (by decide)
  · subst hb
    simp only [List.mem_cons, List.mem_append, List.mem_singleton] at hx
    rcases hx with hx | hx | ⟨hx | hx⟩ | ⟨hx | hx⟩
    · exact absurd hx (by decide)
    · exact absurd hx (by decide)
    · exact absurd (hp _ hx) (by decide)
    · exact absurd (hi _ hx) (by decide)
    · rw [← hx] at hf
      exact absurd hf (by decide)
    · exact absurd hx (List.not_mem_nil _)

theorem ansiSub_esc_nl_blocks : ∀ blocks : List Str,
    (∀ b ∈ blocks, b = ['\n'] ∨ IsEscSeq b) →
    ansiSub blocks.flatten = blocks.flatten.filter (fun c => c == '\n') := by
  intro blocks
  induction blocks with
  | nil => intro _; rfl
  | cons b bs ih =>
    intro h
    have hbs := ih (fun x hx => h x (by simp [hx]))
    rcases h b (by simp) with hb | hb
    · subst hb
      rw [List.flatten_cons, List.singleton_append, ansiSub_cons]
      have hne : ('\n' : Char) ≠ escChar := by decide
      rw [if_neg hne, hbs, List.filter_cons]
      simp
    · rw [List.flatten_cons, ansiSub_escSeq_append hb, hbs, List.filter_append]
      have hnil : (List.filter (fun c => c == '\n') b) = [] :=
        List.filter_eq_nil_iff.mpr (fun c hc => by
          simp [IsEscSeq_no_newline hb c hc])
      rw [hnil, List.nil_append]

/-- C8. For every input composed only of ANSI escape sequences and
newline characters, `clean_ansi` returns exactly those newline
characters and nothing else. -/
theorem clean_ansi_esc_nl_only (blocks : List Str)
    (h : ∀ b ∈ blocks, b = ['\n'] ∨ IsEscSeq b) :
    clean_ansi blocks.flatten = blocks.flatten.filter (fun c => c == '\n') := by
  unfold clean_ansi
  rw [ansiSub_esc_nl_blocks blocks h]
  apply List.filter_eq_self.mpr
  intro c hc
  have hcn : c = '\n' := by
    have := List.of_mem_filter hc
    simpa using this
  subst hcn
  decide

/-- Witness for C8 at a concrete input: a colour change, a newline, a
cursor-move sequence, a single-byte escape and a final newline. -/
theorem clean_ansi_esc_nl_only_witness :
    clean_ansi (List.flatten [[escChar, '[', '3', '1', 'm'], ['\n'],
        [escChar, '[', '2', 'J'], [escChar, 'M'], ['\n']]) =
      (List.flatten [[escChar, '[', '3', '1', 'm'], ['\n'],
        [escChar, '[', '2', 'J'], [escChar, 'M'], ['\n']]).filter
        (fun c => c == '\n') :=
  clean_ansi_esc_nl_only _ (by
    intro b hb
    simp only [List.mem_cons, List.not_mem_nil, or_false] at hb
    rcases hb with hb | hb | hb | hb | hb
    · subst hb
      right
      exact Or.inr ⟨['3', '1'], [], 'm', rfl, by decide, by decide, by decide⟩
    · subst hb; left; rfl
    · subst hb
      right
      exact Or.inr ⟨['2'], [], 'J', rfl, by decide, by decide, by decide⟩
    · subst hb
      right
      exact Or.inl ⟨'M', rfl, by decide⟩
    · subst hb; left; rfl)

/-- C3. The control-sequence stripper is idempotent: for every input
string `x`, `clean_ansi (clean_ansi x) = clean_ansi x`. -/
theorem clean_ansi_idempotent (x : Str) :
    clean_ansi (clean_ansi x) = clean_ansi x := by
  have hne : ∀ c ∈ clean_ansi x, c ≠ escChar := by
    intro c hc hceq
    exact escChar_not_mem_clean_ansi x (hceq ▸ hc)
  show (ansiSub (clean_ansi x)).filter _ = clean_ansi x
  rw [ansiSub_of_no_esc _ hne]
  unfold clean_ansi
  rw [List.filter_filter]
  simp

-- ### Lemmas about line splitting and joining

theorem splitNl_ne_nil : ∀ s : Str, splitNl s ≠ [] := by
  intro s
  cases s with
  | nil => simp [splitNl]
  | cons c rest =>
    simp only [splitNl]
    split
    · simp
    · cases h : splitNl rest <;> simp

theorem splitNl_cons_nl (rest : Str) : splitNl ('\n' :: rest) = [] :: splitNl rest := by
  simp [splitNl]

theorem splitNl_cons_ne (c : Char) (rest : Str) (hc : c ≠ '\n') :
    splitNl (c :: rest) =
      (c :: (splitNl rest).headI) :: (splitNl rest).tail := by
  simp only [splitNl, if_neg hc]
  cases h : splitNl rest with
  | nil => exact absurd h (splitNl_ne_nil rest)
  | cons l ls => simp

theorem splitNl_append : ∀ a b : Str, splitNl (a ++ '\n' :: b) = splitNl a ++ splitNl b := by
  intro a
  induction a with
  | nil =>
    intro b
    rw [List.nil_append, splitNl_cons_nl]
    rfl
  | cons c a ih =>
    intro b
    by_cases hc : c = '\n'
    · subst hc
      rw [List.cons_append, splitNl_cons_nl, splitNl_cons_nl, ih b, List.cons_append]
    · rw [List.cons_append, splitNl_cons_ne c _ hc, splitNl_cons_ne c a hc, ih b]
      obtain ⟨l, ls, hll⟩ : ∃ l ls, splitNl a = l :: ls := by
        cases h : splitNl a with
        | nil => exact absurd h (splitNl_ne_nil a)
        | cons l ls => exact ⟨l, ls, rfl⟩
      rw [hll]
      simp

theorem splitNl_of_no_nl : ∀ s : Str, (∀ c ∈ s, c ≠ '\n') → splitNl s = [s] := by
  intro s
  induction s with
  | nil => intro _; rfl
  | cons c rest ih =>
    intro h
    rw [splitNl_cons_ne c rest (h c (by simp)), ih (fun x hx => h x (by simp [hx]))]
    rfl

theorem no_nl_of_mem_splitNl : ∀ (s : Str) (l : Str), l ∈ splitNl s →
    ∀ c ∈ l, c ≠ '\n' := by
  intro s
  induction s with
  | nil =>
    intro l hl
    simp only [splitNl, List.mem_singleton] at hl
    subst hl
    simp
  | cons c rest ih =>
    intro l hl
    by_cases hc : c = '\n'
    · subst hc
      rw [splitNl_cons_nl] at hl
      rcases List.mem_cons.mp hl with hl | hl
      · subst hl; simp
      · exact ih l hl
    · rw [splitNl_cons_ne c rest hc] at hl
      obtain ⟨l0, ls, hll⟩ : ∃ l0 ls, splitNl rest = l0 :: ls := by
        cases h : splitNl rest with
        | nil => exact absurd h (splitNl_ne_nil rest)
        | cons l0 ls => exact ⟨l0, ls, rfl⟩
      rw [hll] at hl
      simp only [List.headI, List.tail_cons, List.mem_cons] at hl
      rcases hl with hl | hl
      · subst hl
        intro x hx
        rcases List.mem_cons.mp hx with hx | hx
        · subst hx; exact hc
        · exact ih l0 (by rw [hll]; simp) x hx
      · exact ih l (by rw [hll]; simp [hl])

theorem splitNl_joinNl : ∀ es : List Str, es ≠ [] →
    splitNl (joinNl es) = (es.map splitNl).flatten := by
  intro es
  induction es with
  | nil => intro h; exact absurd rfl h
  | cons e es ih =>
    intro _
    cases es with
    | nil => simp [joinNl]
    | cons e2 es2 =>
      show splitNl (e ++ '\n' :: joinNl (e2 :: es2)) = _
      rw [splitNl_append, ih (by simp)]
      simp

-- ### Newline-freeness of the pieces emitted by the compressor loop

theorem mem_pyStrip_subset {s : Str} {c : Char} (h : c ∈ pyStrip s) : c ∈ s := by
  unfold pyStrip at h
  rw [List.mem_reverse] at h
  have h1 := (List.dropWhile_suffix isPyWs).subset h
  rw [List.mem_reverse] at h1
  exact (List.dropWhile_suffix isPyWs).subset h1

theorem natDecimalAux_no_nl : ∀ (fuel n : Nat), ∀ c ∈ natDecimalAux fuel n, c ≠ '\n' := by
  intro fuel
  induction fuel with
  | zero => intro n c hc; simp [natDecimalAux] at hc
  | succ fuel ih =>
    intro n c hc
    simp only [natDecimalAux] at hc
    split at hc
    · rename_i hn
      simp only [List.mem_singleton] at hc
      subst hc
      interval_cases n <;> decide
    · rcases List.mem_append.mp hc with hc | hc
      · exact ih (n / 10) c hc
      · simp only [List.mem_singleton] at hc
        subst hc
        have hm : n % 10 < 10 := Nat.mod_lt _ (by norm_num)
        set m := n % 10 with hmdef
        clear hmdef
        interval_cases m <;> decide

theorem truncMarker_no_nl (n : Nat) : ∀ c ∈ truncMarker n, c ≠ '\n' := by
  intro c hc
  unfold truncMarker at hc
  rcases List.mem_append.mp hc with hc | hc
  · rcases List.mem_append.mp hc with hc | hc
    · exact (by decide : ∀ x ∈ " ... [".toList, x ≠ '\n') c hc
    · exact natDecimalAux_no_nl _ _ c hc
  · exact (by decide : ∀ x ∈ " chars truncated] ... ".toList, x ≠ '\n') c hc

theorem truncateLongLine_no_nl {line : Str} (h : ∀ c ∈ line, c ≠ '\n') :
    ∀ c ∈ truncateLongLine line, c ≠ '\n' := by
  intro c hc
  unfold truncateLongLine at hc
  split at hc
  · rcases List.mem_append.mp hc with hc | hc
    · rcases List.mem_append.mp hc with hc | hc
      · exact h c (List.take_subset _ _ hc)
      · exact truncMarker_no_nl _ c hc
    · exact h c (List.drop_subset _ _ hc)
  · exact h c hc

theorem userStepSep_no_nl : ∀ c ∈ userStepSep, c ≠ '\n' := by decide

-- ### Decomposition of the compressor output into per-line pieces

theorem processEntry_none_iff (line : Str) :
    processEntry line = none ↔ emittedLines line = [] := by
  simp only [processEntry, emittedLines]
  by_cases hp : isPromptStrip (pyStrip line) = true
  · simp [hp]
  · by_cases hn : isNoiseLine line = true
    · simp [hp, hn]
    · simp [hp, hn]

theorem splitNl_processEntry_some {line e : Str} (h : ∀ c ∈ line, c ≠ '\n')
    (he : processEntry line = some e) : splitNl e = emittedLines line := by
  have hstrip : ∀ c ∈ pyStrip line, c ≠ '\n' := fun c hc => h c (mem_pyStrip_subset hc)
  simp only [processEntry] at he
  simp only [emittedLines]
  by_cases hp : isPromptStrip (pyStrip line) = true
  · rw [if_pos hp] at he
    cases he
    rw [if_pos hp, splitNl_cons_nl, splitNl_append,
      splitNl_of_no_nl _ userStepSep_no_nl, splitNl_of_no_nl _ hstrip]
    rfl
  · rw [if_neg hp] at he
    by_cases hn : isNoiseLine line = true
    · rw [if_pos hn] at he
      cases he
    · rw [if_neg hn] at he
      cases he
      rw [if_neg hp, if_neg hn, splitNl_of_no_nl _ (truncateLongLine_no_nl h)]

theorem flatten_map_splitNl_filterMap : ∀ lines : List Str,
    (∀ l ∈ lines, ∀ c ∈ l, c ≠ '\n') →
    ((lines.filterMap processEntry).map splitNl).flatten =
      (lines.map emittedLines).flatten := by
  intro lines
  induction lines with
  | nil => intro _; rfl
  | cons line rest ih =>
    intro h
    have hrest := ih (fun l hl => h l (by simp [hl]))
    cases he : processEntry line with
    | none =>
      rw [List.filterMap_cons_none he, hrest, List.map_cons, List.flatten_cons,
        (processEntry_none_iff line).mp he, List.nil_append]
    | some e =>
      rw [List.filterMap_cons_some he, List.map_cons, List.flatten_cons,
        List.map_cons, List.flatten_cons, hrest,
        splitNl_processEntry_some (h line (by simp)) he]

/-- The central decomposition: the lines of the compressor's output are
exactly the concatenation of the per-input-line contributions
(`emittedLines`); when every input line is skipped the output is the
empty string, which splits into one empty line. -/
theorem compress_lines_eq (raw : Str) :
    splitNl (smart_compress_transcript raw) =
      (if ((splitNl (clean_ansi raw)).map emittedLines).flatten = [] then [[]]
       else ((splitNl (clean_ansi raw)).map emittedLines).flatten) := by
  have hnn : ∀ l ∈ splitNl (clean_ansi raw), ∀ c ∈ l, c ≠ '\n' :=
    no_nl_of_mem_splitNl (clean_ansi raw)
  unfold smart_compress_transcript
  cases he : (splitNl (clean_ansi raw)).filterMap processEntry with
  | nil =>
    have hflat : ((splitNl (clean_ansi raw)).map emittedLines).flatten = [] := by
      rw [← flatten_map_splitNl_filterMap _ hnn, he]
      rfl
    rw [hflat, if_pos rfl]
    rfl
  | cons e es =>
    have hsplit : splitNl (joinNl (e :: es)) =
        ((e :: es).map splitNl).flatten := splitNl_joinNl _ (by simp)
    have hflat : ((splitNl (clean_ansi raw)).map emittedLines).flatten =
        ((e :: es).map splitNl).flatten := by
      rw [← flatten_map_splitNl_filterMap _ hnn, he]
    have hne : ((e :: es).map splitNl).flatten ≠ [] := by
      simp only [List.map_cons, List.flatten_cons]
      intro hcon
      exact splitNl_ne_nil e (List.append_eq_nil.mp hcon).1
    have hne2 : ((splitNl (clean_ansi raw)).map emittedLines).flatten ≠ [] := by
      rw [hflat]
      exact hne
    rw [hsplit, if_neg hne2, hflat]

-- ### Evaluation on all-'a' lines (used for the length-cap claims)

theorem containsSub_head_not_mem {n0 : Char} (ntail : Str) : ∀ hay : Str,
    (∀ c ∈ hay, c ≠ n0) → containsSub (n0 :: ntail) hay = false := by
  intro hay
  induction hay with
  | nil => intro _; rfl
  | cons c rest ih =>
    intro h
    unfold containsSub at ih ⊢
    rw [List.tails_cons, List.any_cons, ih (fun x hx => h x (by simp [hx]))]
    have hc : (n0 == c) = false := by
      rw [beq_eq_false_iff_ne]
      exact fun hcon => h c (by simp) hcon.symm
    simp [List.isPrefixOf, hc]

theorem dropWhile_isPyWs_replicate_a (n : Nat) :
    (List.replicate n 'a').dropWhile isPyWs = List.replicate n 'a' := by
  cases n with
  | zero => rfl
  | succ k =>
    rw [List.replicate_succ, List.dropWhile_cons]
    have : isPyWs 'a' = false := by decide
    simp [this]

theorem pyStrip_replicate_a (n : Nat) :
    pyStrip (List.replicate n 'a') = List.replicate n 'a' := by
  unfold pyStrip
  rw [dropWhile_isPyWs_replicate_a, List.reverse_replicate,
    dropWhile_isPyWs_replicate_a, List.reverse_replicate]

theorem isPromptStrip_replicate_a (n : Nat) :
    isPromptStrip (List.replicate n 'a') = false := by
  cases n with
  | zero => rfl
  | succ k =>
    rw [List.replicate_succ]
    simp [isPromptStrip, List.isPrefixOf]

theorem isNoiseLine_replicate_a (n : Nat) :
    isNoiseLine (List.replicate n 'a') = false := by
  have ha : ∀ c0 : Char, c0 ≠ 'a' → ∀ c ∈ List.replicate n 'a', c ≠ c0 := by
    intro c0 hc0 c hc
    rw [List.eq_of_mem_replicate hc]
    exact fun hcon => hc0 hcon.symm
  unfold isNoiseLine
  rw [show "Resolving...".toList = 'R' :: "esolving...".toList from rfl,
    show "Fetching...".toList = 'F' :: "etching...".toList from rfl,
    show "Downloading...".toList = 'D' :: "ownloading...".toList from rfl,
    containsSub_head_not_mem _ _ (ha 'R' (by decide)),
    containsSub_head_not_mem _ _ (ha 'F' (by decide)),
    containsSub_head_not_mem _ _ (ha 'D' (by decide))]
  rfl

theorem clean_ansi_replicate_a (n : Nat) :
    clean_ansi (List.replicate n 'a') = List.replicate n 'a' := by
  unfold clean_ansi
  rw [ansiSub_of_no_esc _ (fun c hc => by
    rw [List.eq_of_mem_replicate hc]; decide)]
  apply List.filter_eq_self.mpr
  intro c hc
  rw [List.eq_of_mem_replicate hc]
  decide

theorem smart_compress_replicate_a (n : Nat) :
    smart_compress_transcript (List.replicate n 'a') =
      truncateLongLine (List.replicate n 'a') := by
  unfold smart_compress_transcript
  rw [clean_ansi_replicate_a,
    splitNl_of_no_nl _ (fun c hc => by rw [List.eq_of_mem_replicate hc]; decide)]
  have hpe : processEntry (List.replicate n 'a') =
      some (truncateLongLine (List.replicate n 'a')) := by
    simp only [processEntry, pyStrip_replicate_a, isPromptStrip_replicate_a,
      isNoiseLine_replicate_a]
    rfl
  rw [List.filterMap_cons_some hpe]
  rfl

/-- The output of step 3 of the compressor loop is never longer than
the maximum of the threshold (300) and `228 + d`, where `d` is the
number of decimal digits of the elided-character count. -/
theorem truncateLongLine_length (line : Str) :
    (truncateLongLine line).length ≤
      max 300 (228 + (natDecimal (line.length - 200)).length) := by
  unfold truncateLongLine
  split
  · rename_i hlen
    rw [List.length_append, List.length_append, List.length_take, List.length_drop]
    unfold truncMarker
    rw [List.length_append, List.length_append]
    have h6 : (" ... [".toList).length = 6 := by decide
    have h22 : (" chars truncated] ... ".toList).length = 22 := by decide
    omega
  · rename_i hlen
    omega

-- ### Claim C2 (line-length cap)

/-- C2 counterexample.  The claim bounds every output line by
`head (100) + tail (100) + marker`; the marker for a three-digit elision
count is 31 characters, so the bound is at most 231.  But a 300-character
input line is not truncated at all (the source tests `len(line) > 300`)
and is emitted whole: the output has a line of length 300 > 231. -/
theorem compress_line_bound_cex :
    (splitNl (smart_compress_transcript (List.replicate 300 'a'))).any
      (fun l => decide (231 < l.length)) = true := by
  rw [smart_compress_replicate_a]
  have h300 : ¬(300 < (List.replicate 300 'a' : Str).length) := by
    rw [List.length_replicate]
    omega
  unfold truncateLongLine
  rw [if_neg h300,
    splitNl_of_no_nl _ (fun c hc => by rw [List.eq_of_mem_replicate hc]; decide)]
  simp only [List.any_cons, List.any_nil, Bool.or_false, List.length_replicate]
  decide

/-- C2 (amended).  Every line of the compressor's output is the empty
line, the user-step separator, a trimmed prompt line (exempt from
capping, reproduced verbatim with whatever length), or the
(possibly truncated) image of an input line, whose length is at most
`max threshold (head + tail + marker length)` — 300 or `228 + d` with
`d` the digit count of the elided-character count.  In particular a
single 1000-character input line is emitted as its first 100
characters, the marker for 800 elided characters, and its last 100
characters, exactly as the claim's example states. -/
theorem compress_line_bound_amended :
    (∀ raw l, l ∈ splitNl (smart_compress_transcript raw) →
      l = [] ∨ l = userStepSep ∨
      (∃ orig ∈ splitNl (clean_ansi raw),
        isPromptStrip (pyStrip orig) = true ∧ l = pyStrip orig) ∨
      (∃ orig ∈ splitNl (clean_ansi raw), l = truncateLongLine orig ∧
        l.length ≤ max 300 (228 + (natDecimal (orig.length - 200)).length))) ∧
    smart_compress_transcript (List.replicate 1000 'a') =
      List.replicate 100 'a' ++ " ... [800 chars truncated] ... ".toList ++
        List.replicate 100 'a' := by
  constructor
  · intro raw l hl
    rw [compress_lines_eq] at hl
    split at hl
    · left
      simpa using hl
    · rw [List.mem_flatten] at hl
      obtain ⟨piece, hpiece, hlp⟩ := hl
      rw [List.mem_map] at hpiece
      obtain ⟨line, hline, hpe⟩ := hpiece
      subst hpe
      simp only [emittedLines] at hlp
      by_cases hp : isPromptStrip (pyStrip line) = true
      · rw [if_pos hp] at hlp
        simp only [List.mem_cons, List.not_mem_nil, or_false] at hlp
        rcases hlp with hlp | hlp | hlp
        · left; exact hlp
        · right; left; exact hlp
        · right; right; left
          exact ⟨line, hline, hp, hlp⟩
      · rw [if_neg hp] at hlp
        by_cases hn : isNoiseLine line = true
        · rw [if_pos hn] at hlp
          exact absurd hlp (List.not_mem_nil l)
        · rw [if_neg hn] at hlp
          simp only [List.mem_singleton] at hlp
          subst hlp
          right; right; right
          exact ⟨line, hline, rfl, truncateLongLine_length line⟩
  · rw [smart_compress_replicate_a]
    unfold truncateLongLine
    have hlen : (300 : Nat) < (List.replicate 1000 'a' : Str).length := by
      rw [List.length_replicate]
      omega
    rw [if_pos hlen, List.length_replicate, List.take_replicate, List.drop_replicate]
    have hmarker : truncMarker (1000 - 200) = " ... [800 chars truncated] ... ".toList := by
      decide
    rw [hmarker]
    norm_num

/-- Witness for the amended C2 at a concrete input: the single line
`"x"` is emitted as the untruncated image of itself. -/
theorem compress_line_bound_amended_witness :
    ['x'] = [] ∨ ['x'] = userStepSep ∨
      (∃ orig ∈ splitNl (clean_ansi ['x']),
        isPromptStrip (pyStrip orig) = true ∧ ['x'] = pyStrip orig) ∨
      (∃ orig ∈ splitNl (clean_ansi ['x']), ['x'] = truncateLongLine orig ∧
        (['x'] : Str).length ≤ max 300 (228 + (natDecimal (orig.length - 200)).length)) :=
  compress_line_bound_amended.1 ['x'] ['x'] (by decide)

-- ### Claim C4 (noise filtering and order preservation)

/-- C4 counterexample.  The claim says every line containing
`"Fetching..."` is dropped, but the prompt branch is tested first: the
line `"> Fetching..."` is kept (as a user step), and its text — with
the `"Fetching..."` substring — still occurs in the output. -/
theorem compress_noise_cex :
    containsSub "Fetching...".toList
      (smart_compress_transcript "> Fetching...".toList) = true := by decide

/-- C4 (amended).  The compressor drops exactly the non-prompt lines
containing one of the three progress markers, and processes all other
lines in their original relative order: the output lines are the
concatenation, over the input lines in order, of each line's
contribution — `[]` for a dropped noise line, blank line + separator +
trimmed text for a prompt line, the (possibly truncated) line itself
otherwise.  (When every line is dropped the output is the empty
string, i.e. one empty line.) -/
theorem compress_noise_order (raw : Str) :
    splitNl (smart_compress_transcript raw) =
      (if ((splitNl (clean_ansi raw)).map emittedLines).flatten = [] then [[]]
       else ((splitNl (clean_ansi raw)).map emittedLines).flatten) :=
  compress_lines_eq raw

-- ### Claim C10 (prompt lines)

/-- C10.  Every input line whose trimmed content starts with one of the
two prompt markers produces, in the compressor's output, a blank line,
the literal separator `--- USER STEP ---`, and the trimmed line —
whatever the line contains and however long it is. -/
theorem prompt_line_emitted {raw line : Str}
    (hline : line ∈ splitNl (clean_ansi raw))
    (hprompt : isPromptStrip (pyStrip line) = true) :
    ∃ pre post, splitNl (smart_compress_transcript raw) =
      pre ++ [] :: userStepSep :: pyStrip line :: post := by
  obtain ⟨l1, l2, hsplit⟩ := List.append_of_mem hline
  have hemit : emittedLines line = [[], userStepSep, pyStrip line] := by
    simp only [emittedLines]
    rw [if_pos hprompt]
  have hflat : ((splitNl (clean_ansi raw)).map emittedLines).flatten =
      (l1.map emittedLines).flatten ++
        ([] :: userStepSep :: pyStrip line :: (l2.map emittedLines).flatten) := by
    rw [hsplit, List.map_append, List.map_cons, List.flatten_append, List.flatten_cons,
      hemit]
    rfl
  have hne : ((splitNl (clean_ansi raw)).map emittedLines).flatten ≠ [] := by
    rw [hflat]
    cases h1 : (l1.map emittedLines).flatten <;> simp
  refine ⟨(l1.map emittedLines).flatten, (l2.map emittedLines).flatten, ?_⟩
  rw [compress_lines_eq, if_neg hne, hflat]

/-- Witness for C10 at the concrete session line `"> hi"`. -/
theorem prompt_line_emitted_witness :
    ∃ pre post, splitNl (smart_compress_transcript "> hi".toList) =
      pre ++ [] :: userStepSep :: pyStrip "> hi".toList :: post :=
  prompt_line_emitted (by decide) (by decide)

-- ### Claim C6 (bounded collaborator input)

/-- C6.  The transcript portion of the collaborator input built by
`generate_summary` is at most 80000 characters; when the transcript is
longer, the portion is exactly its last 80000 characters (a suffix of
length 80000); when it is shorter or equal, the whole transcript. -/
theorem transcript_cap (transcript oldSummary : Str) :
    ∃ p, promptContent transcript oldSummary =
        "=== PREVIOUS SESSION HTML ===\n".toList ++ oldSummary ++
          "\n\n=== CURRENT SESSION TRANSCRIPT ===\n".toList ++ p ∧
      p.length ≤ 80000 ∧
      (transcript.length ≤ 80000 → p = transcript) ∧
      (80000 ≤ transcript.length → p.length = 80000 ∧ p <:+ transcript) := by
  refine ⟨pySliceLastN 80000 transcript, rfl, ?_, ?_, ?_⟩
  · unfold pySliceLastN
    rw [List.length_drop]
    omega
  · intro h
    unfold pySliceLastN
    have h0 : transcript.length - 80000 = 0 := by omega
    rw [h0, List.drop_zero]
  · intro h
    refine ⟨?_, List.drop_suffix _ _⟩
    unfold pySliceLastN
    rw [List.length_drop]
    omega

/-- Witness for C6 at a concrete one-character transcript. -/
theorem transcript_cap_witness :
    ∃ p, promptContent ['t'] ['o'] =
        "=== PREVIOUS SESSION HTML ===\n".toList ++ ['o'] ++
          "\n\n=== CURRENT SESSION TRANSCRIPT ===\n".toList ++ p ∧
      p.length ≤ 80000 ∧
      ((['t'] : Str).length ≤ 80000 → p = ['t']) ∧
      (80000 ≤ (['t'] : Str).length → p.length = 80000 ∧ p <:+ ['t']) :=
  transcript_cap ['t'] ['o']

-- ### Claim C9 (collaborator failure handling)

/-- C9.  When the collaborator invocation fails — a non-zero exit code
or an exception during the call — the orchestrator does not crash: the
report becomes the visible error marker text carrying the diagnostic
(the captured stderr, resp. the exception message), and exactly that
text is persisted to the output file. -/
theorem collaborator_failure_persisted :
    (∀ (transcript oldSummary : Str) (code : Int) (out err : Str),
      pyStrip transcript ≠ [] → code ≠ 0 →
      main_saved_report transcript oldSummary (.ran code out err) =
        some ("❌ Claude CLI Error: ".toList ++ err)) ∧
    (∀ (transcript oldSummary msg : Str), pyStrip transcript ≠ [] →
      main_saved_report transcript oldSummary (.exn msg) =
        some ("❌ Execution Error: ".toList ++ msg)) := by
  constructor
  · intro t o code out err ht hc
    unfold main_saved_report
    rw [if_neg ht]
    simp only [generate_summary_result]
    rw [if_pos hc]
  · intro t o msg ht
    unfold main_saved_report
    rw [if_neg ht]
    rfl

/-- Witness for C9: a failed run with exit code 1 and stderr `"boom"`. -/
theorem collaborator_failure_persisted_witness :
    main_saved_report ['t'] [] (.ran 1 [] "boom".toList) =
      some ("❌ Claude CLI Error: ".toList ++ "boom".toList) :=
  collaborator_failure_persisted.1 ['t'] [] 1 [] "boom".toList (by decide) (by decide)

-- ### Claim C7 (log retention)

theorem cleanupScan_eq (cutoff : Int) : ∀ entries : List FsEntry,
    cleanupScan cutoff entries =
      (entries.filter (fun e =>
         !(endsWithLog e.name && decide (e.mtime < cutoff) && !e.removeFails)),
       entries.countP (fun e =>
         endsWithLog e.name && decide (e.mtime < cutoff) && !e.removeFails)) := by
  intro entries
  induction entries with
  | nil => rfl
  | cons e rest ih =>
    simp only [cleanupScan, ih]
    by_cases h1 : endsWithLog e.name = true
    · by_cases h2 : e.mtime < cutoff
      · by_cases h3 : e.removeFails = true
        · simp [h1, h2, h3, List.filter_cons, List.countP_cons]
        · simp [h1, h2, h3, List.filter_cons, List.countP_cons]
      · simp [h1, h2, List.filter_cons, List.countP_cons]
    · simp [h1, List.filter_cons, List.countP_cons]

/-- C7.  With the default 2-day threshold, the retention manager
deletes exactly the `.log`-suffixed entries whose modification time is
older than `now - 2*86400` and whose per-file operations do not fail
(failures are swallowed and leave the entry in place without aborting
the scan of the rest); non-`.log` entries of any age always survive; a
missing directory is a no-op; and on the claim's example —
`session_old.log` five days old, `session_new.log` one hour old — exactly
the old log is deleted. -/
theorem cleanup_old_logs_spec :
    (∀ (now : Int) (dir : List FsEntry),
      cleanup_old_logs now 2 (some dir) =
        (some (dir.filter (fun e =>
           !(endsWithLog e.name && decide (e.mtime < now - 2 * 86400) && !e.removeFails))),
         dir.countP (fun e =>
           endsWithLog e.name && decide (e.mtime < now - 2 * 86400) && !e.removeFails))) ∧
    (∀ now : Int, cleanup_old_logs now 2 none = (none, 0)) ∧
    (∀ (now : Int) (dir : List FsEntry) (e : FsEntry), e ∈ dir →
      endsWithLog e.name = false →
      e ∈ ((cleanup_old_logs now 2 (some dir)).1.getD [])) ∧
    cleanup_old_logs 1000000 2 (some
        [⟨"session_old.log".toList, 568000, false⟩,
         ⟨"session_new.log".toList, 996400, false⟩,
         ⟨"notes.txt".toList, 0, false⟩]) =
      (some [⟨"session_new.log".toList, 996400, false⟩,
             ⟨"notes.txt".toList, 0, false⟩], 1) := by
  have hmain : ∀ (now : Int) (dir : List FsEntry),
      cleanup_old_logs now 2 (some dir) =
        (some (dir.filter (fun e =>
           !(endsWithLog e.name && decide (e.mtime < now - 2 * 86400) && !e.removeFails))),
         dir.countP (fun e =>
           endsWithLog e.name && decide (e.mtime < now - 2 * 86400) && !e.removeFails)) := by
    intro now dir
    simp only [cleanup_old_logs, cleanupScan_eq]
  refine ⟨hmain, fun _ => rfl, ?_, by decide⟩
  intro now dir e he hnl
  rw [hmain]
  simp only [Option.getD_some]
  exact List.mem_filter.mpr ⟨he, by simp [hnl]⟩

/-- Witness for C7: a non-`.log` entry survives the scan. -/
theorem cleanup_old_logs_spec_witness :
    (⟨"notes.txt".toList, 0, false⟩ : FsEntry) ∈
      ((cleanup_old_logs 1000000 2 (some [⟨"notes.txt".toList, 0, false⟩])).1.getD []) :=
  cleanup_old_logs_spec.2.2.1 1000000 [⟨"notes.txt".toList, 0, false⟩]
    ⟨"notes.txt".toList, 0, false⟩ (by decide) (by decide)

-- ### Claims C1 and C5 (wrapper exit codes)

/-- C1 counterexample: a session whose child exits with status 7.  The
claim says the wrapper process then exits with status 7; it exits 0. -/
theorem exit_propagation_cex :
    wrapper_process_exit "claude".toList (.ok 7) = 0 ∧ (7 : Nat) ≠ 0 :=
  ⟨rfl, by decide⟩

/-- C1 (amended).  Once the child has been spawned, the wrapper's own
process exit code is 0 regardless of the child's exit status: `main`
never inspects the status returned by `pty.spawn`, and the `__main__`
guard calls `main()` without `sys.exit`, discarding its return value. -/
theorem exit_always_zero (realClaude : Str) (n : Nat) :
    wrapper_process_exit realClaude (.ok n) = 0 := rfl

/-- C5.  At a spawn failure (`OSError` from `pty.spawn`), `main` prints
the diagnostic naming the attempted path, closes the already-opened log
file, and returns 1 — but the wrapper process still exits 0, because
the `__main__` guard discards `main`'s return value: the claim's
"exits with a non-zero process exit code" does not hold, while its
other two parts do. -/
theorem spawn_failure_behavior :
    (wrapper_main "/usr/local/bin/claude".toList
        (.osError "[Errno 2] No such file or directory".toList)).returnValue = some 1 ∧
    containsSub "/usr/local/bin/claude".toList
      ((wrapper_main "/usr/local/bin/claude".toList
        (.osError "[Errno 2] No such file or directory".toList)).diagnostic.getD []) =
      true ∧
    (wrapper_main "/usr/local/bin/claude".toList
        (.osError "[Errno 2] No such file or directory".toList)).logClosed = true ∧
    wrapper_process_exit "/usr/local/bin/claude".toList
        (.osError "[Errno 2] No such file or directory".toList) = 0 := by
  refine ⟨rfl, by decide, rfl, rfl⟩
